import Mathlib

/-!
A shallow embedding of the deadlock-detection core (`deadlock.go` of
ericrpowers/go-deadlock) and proofs about it.

Modelling conventions:
* Lock handles are natural numbers standing for the Go pointer identities
  used as map keys; goroutine ids are integers (Go `int64`); captured stacks
  are opaque lists of frame identifiers (Go `[]uintptr`).
* The two Go maps `cur` and `order` are embedded as association lists with
  Go-map semantics (insert replaces an existing key, delete removes it);
  the `for ... range` iteration of `preLock` walks the list in order
  (Go leaves map-iteration order unspecified; the list order is one
  admissible schedule).
* Side effects are recorded as an `Action` trace: guard (un)locks of
  `lo.mu` and of `Opts.mu`, calls into the frame/identity provider
  (`callers`, `printStack`, `stacks`, `goid.Get`), log writes, the
  `Opts.OnPotentialDeadlock` callback, the forced `zap.L().Fatal`, the
  underlying primitive's acquire/release and the watchdog spawn/cancel.
* A positive detection ends in `OnPotentialDeadlock` followed by the
  forced fatal, which terminates the process, so a detecting run never
  returns a successor state.
* The watchdog goroutine of `lock` runs concurrently with everything
  else; it is embedded as a function of the sequence of events it
  observes (which `select` branch wins each round, and the snapshot of
  `lo.cur` it reads under the guard at each re-check).
-/

namespace GoDeadlock

/-- Identity of a lock instance (`interface{}` key of the Go maps). -/
abbrev LockHandle : Type := Nat

/-- A goroutine identifier, `goid.Get()`'s `int64`. -/
abbrev Gid : Type := Int

/-- A captured call stack (`[]uintptr`), opaque frame identifiers. -/
abbrev Stack : Type := List Nat

/-- Go struct `stackGID`: the stack and goroutine id recorded for a held lock. -/
structure stackGID where
  stack : Stack
  gid : Gid
deriving DecidableEq, Repr

/-- Go struct `beforeAfter`: an ordered pair of lock handles, key of `order`. -/
structure beforeAfter where
  before : LockHandle
  after : LockHandle
deriving DecidableEq, Repr

/-- Go struct `ss`: the evidence stacks stored for an order edge. -/
structure ss where
  before : Stack
  after : Stack
deriving DecidableEq, Repr

/-- Association-list lookup with Go-map semantics. -/
def lookupA {K V : Type} [DecidableEq K] : List (K × V) → K → Option V
  | [], _ => none
  | (k', v) :: rest, k => if k' = k then some v else lookupA rest k

/-- Association-list insert with Go-map semantics: replace the existing
entry for the key, or append a fresh one. -/
def insertA {K V : Type} [DecidableEq K] : List (K × V) → K → V → List (K × V)
  | [], k, v => [(k, v)]
  | (k', v') :: rest, k, v =>
    if k' = k then (k, v) :: rest else (k', v') :: insertA rest k v

/-- Association-list delete with Go-map semantics (`delete(m, k)`). -/
def eraseA {K V : Type} [DecidableEq K] : List (K × V) → K → List (K × V)
  | [], _ => []
  | (k', v') :: rest, k =>
    if k' = k then eraseA rest k else (k', v') :: eraseA rest k

/-- `lo.cur`: which locks are currently held, with stack and goroutine id. -/
abbrev Cur : Type := List (LockHandle × stackGID)

/-- `lo.order`: the observed lock-order edges with their evidence. -/
abbrev Order : Type := List (beforeAfter × ss)

/-- The fields of the global `Opts` that the core's control flow reads. -/
structure Config where
  disable : Bool
  disableLockOrderDetection : Bool
  deadlockTimeout : Int
  maxMapSize : Int
  printAllCurrentGoroutines : Bool
deriving DecidableEq, Repr

/-- The mutable fields of the Go `lockOrder` singleton `lo`. -/
structure LockOrderState where
  cur : Cur
  order : Order
deriving DecidableEq, Repr

/-- `newLockOrder()`: both maps start empty. -/
def newLockOrder : LockOrderState := ⟨[], []⟩

/-- Observable actions of a run, in program order. -/
inductive Action where
  | guardLock        -- lo.mu.Lock()
  | guardUnlock      -- lo.mu.Unlock()
  | logLock          -- Opts.mu.Lock()
  | logUnlock        -- Opts.mu.Unlock()
  | captureStack     -- callers(...)
  | getGid           -- goid.Get()
  | renderStack      -- printStack(...)
  | dumpAll          -- stacks()
  | logWarn          -- a zap.L().Warn(...) report line
  | callback         -- Opts.OnPotentialDeadlock()
  | fatal            -- zap.L().Fatal("Forcing fatal...")
  | acquirePrimitive -- the wrapped primitive's blocking acquire (lockFn())
  | releasePrimitive -- the wrapped primitive's release
  | spawnWatchdog    -- the `go func() { ... }()` of `lock`
  | closeSignal      -- close(ch)
deriving DecidableEq, Repr

/-- Which detection fired. -/
inductive Detection where
  | recursive
  | inversion
  | timeout
deriving DecidableEq, Repr

/-- `lockOrder.other` (lines 330-349): if any lock other than `ptr` is held,
one header line plus a line and a stack render per other held lock. -/
def otherEntriesTrace (p : LockHandle) : Cur → List Action
  | [] => []
  | (k, _) :: rest =>
    if k = p then otherEntriesTrace p rest
    else Action.logWarn :: Action.renderStack :: otherEntriesTrace p rest

/-- Trace of `lockOrder.other`. -/
def otherTrace (cur : Cur) (p : LockHandle) : List Action :=
  if cur.all (fun kv => kv.1 = p) then []
  else Action.logWarn :: otherEntriesTrace p cur

/-- Trace of the recursive-locking report (lines 278-287): log guard taken,
report lines and stack renders, other-holders snapshot, log guard released,
then the policy callback and the forced fatal. -/
def recursiveReportTrace (cur : Cur) (p : LockHandle) : List Action :=
  [Action.logLock, Action.logWarn, Action.logWarn, Action.renderStack,
   Action.logWarn, Action.renderStack]
  ++ otherTrace cur p
  ++ [Action.logUnlock, Action.callback, Action.fatal]

/-- Trace of the order-inversion report (lines 295-308). -/
def inversionReportTrace (cur : Cur) (p : LockHandle) : List Action :=
  [Action.logLock, Action.logWarn, Action.logWarn, Action.renderStack,
   Action.logWarn, Action.renderStack, Action.logWarn, Action.renderStack,
   Action.logWarn, Action.renderStack]
  ++ otherTrace cur p
  ++ [Action.logUnlock, Action.callback, Action.fatal]

/-- Result of `lockOrder.preLock`: either a detection fired (the process
terminates inside the call, after the trace) or the call completed with the
updated `order` map. `cur` is never modified by `preLock`. -/
inductive PreLockResult where
  | detected (kind : Detection) (trace : List Action)
  | completed (order : Order) (trace : List Action)
deriving DecidableEq, Repr

/-- Lines 310-313: record edge `(b, p)`; if the map has reached
`Opts.MaxMapSize` entries it is reset to empty (the fresh entry included). -/
def recordEdge (cfg : Config) (order : Order) (k : beforeAfter) (v : ss) : Order :=
  let o' := insertA order k v
  if (o'.length : Int) = cfg.maxMapSize then [] else o'

/-- The `for b, bs := range l.cur` loop of `lockOrder.preLock`
(lines 275-314), walking the held-lock entries in list order. `cur0` is the
full `l.cur` map, read by the reports' `l.other(p)`. -/
def preLockLoop (cfg : Config) (cur0 : Cur) (p : LockHandle) (stack : Stack)
    (gid : Gid) : List (LockHandle × stackGID) → Order → PreLockResult
  | [], order =>
    .completed order [Action.captureStack, Action.getGid, Action.guardLock,
                      Action.guardUnlock]
  | (b, bs) :: rest, order =>
    if b = p then
      if bs.gid = gid then
        .detected .recursive
          ([Action.captureStack, Action.getGid, Action.guardLock]
            ++ recursiveReportTrace cur0 p)
      else preLockLoop cfg cur0 p stack gid rest order
    else if bs.gid ≠ gid then preLockLoop cfg cur0 p stack gid rest order
    else
      match lookupA order ⟨p, b⟩ with
      | some _ =>
        .detected .inversion
          ([Action.captureStack, Action.getGid, Action.guardLock]
            ++ inversionReportTrace cur0 p)
      | none =>
        preLockLoop cfg cur0 p stack gid rest
          (recordEdge cfg order ⟨b, p⟩ ⟨bs.stack, stack⟩)

/-- `lockOrder.preLock` (lines 268-316): skipped wholesale when order
detection is disabled; otherwise capture stack and gid, take the graph
guard, and run the loop. -/
def preLock (cfg : Config) (st : LockOrderState) (p : LockHandle)
    (stack : Stack) (gid : Gid) : PreLockResult :=
  if cfg.disableLockOrderDetection then .completed st.order []
  else preLockLoop cfg st.cur p stack gid st.cur st.order

/-- `lockOrder.postLock` (lines 260-266): capture stack and gid, then under
the guard overwrite `cur[p]` with the fresh record. -/
def postLock (st : LockOrderState) (p : LockHandle) (stack : Stack)
    (gid : Gid) : LockOrderState × List Action :=
  (⟨insertA st.cur p ⟨stack, gid⟩, st.order⟩,
   [Action.captureStack, Action.getGid, Action.guardLock, Action.guardUnlock])

/-- `lockOrder.postUnlock` (lines 318-322): under the guard delete `cur[p]`. -/
def postUnlock (st : LockOrderState) (p : LockHandle) :
    LockOrderState × List Action :=
  (⟨eraseA st.cur p, st.order⟩, [Action.guardLock, Action.guardUnlock])

/-- Result of the `lock` helper: either a detection terminated the process
inside `preLock`, or the acquisition completed with the new global state,
the main goroutine's trace, and whether a watchdog task was spawned. -/
inductive LockResult where
  | detected (kind : Detection) (trace : List Action)
  | completed (st : LockOrderState) (trace : List Action) (spawned : Bool)
deriving DecidableEq, Repr

/-- The `lock` helper (lines 170-228): pure pass-through when disabled;
otherwise `preLock`, then (with a positive timeout) spawn the watchdog,
block on the primitive, `postLock`, and cancel the watchdog. `preStack`
and `postStack` are the stacks captured by `preLock` and `postLock`. -/
def lock (cfg : Config) (st : LockOrderState) (ptr : LockHandle)
    (preStack postStack : Stack) (gid : Gid) : LockResult :=
  if cfg.disable then .completed st [Action.acquirePrimitive] false
  else
    match preLock cfg st ptr preStack gid with
    | .detected k tr => .detected k tr
    | .completed order1 tr1 =>
      let st1 : LockOrderState := ⟨st.cur, order1⟩
      if cfg.deadlockTimeout ≤ 0 then
        let pl := postLock st1 ptr postStack gid
        .completed pl.1 (tr1 ++ [Action.acquirePrimitive] ++ pl.2) false
      else
        let pl := postLock st1 ptr postStack gid
        .completed pl.1
          (tr1 ++ [Action.spawnWatchdog, Action.acquirePrimitive]
            ++ pl.2 ++ [Action.closeSignal]) true

/-- `Mutex.Unlock` / `RWMutex.Unlock` / `RWMutex.RUnlock` (lines 94-99,
126-131, 145-150): release the primitive, then unless disabled delete the
held-record. -/
def unlock (cfg : Config) (st : LockOrderState) (p : LockHandle) :
    LockOrderState × List Action :=
  if cfg.disable then (st, [Action.releasePrimitive])
  else
    let pu := postUnlock st p
    (pu.1, Action.releasePrimitive :: pu.2)

/-- One observed round of the watchdog goroutine's `select` (lines 184-219):
either the cancellation channel fired, or the timer fired and the task read
the given snapshot of `lo.cur` under the guard; `blobMatches` counts the
goroutine blobs of `stacks()` whose extracted gid equals the holder's. -/
inductive WatchEvent where
  | completed
  | timerFired (snapshot : Cur) (blobMatches : Nat)
deriving DecidableEq, Repr

/-- How a watchdog run ended. -/
inductive WatchOutcome where
  | exitCompleted  -- cancellation signal won, no report
  | exitReported   -- timeout report emitted, process being terminated
  | pending        -- run truncated before the task exited
deriving DecidableEq, Repr

/-- Trace of the watchdog's timeout report (lines 186-214): graph guard
taken, log guard taken, report lines, holder's stack rendered, current gid
read, current stack captured and rendered, all goroutines dumped, matching
blobs flagged, other-holders snapshot, optional full dump, log guard
released, graph guard released, then the callback and the forced fatal. -/
def watchdogReportTrace (snap : Cur) (ptr : LockHandle) (blobMatches : Nat)
    (printAll : Bool) : List Action :=
  [Action.guardLock, Action.logLock, Action.logWarn, Action.logWarn,
   Action.logWarn, Action.renderStack, Action.logWarn, Action.getGid,
   Action.logWarn, Action.captureStack, Action.renderStack, Action.dumpAll]
  ++ List.replicate blobMatches Action.logWarn
  ++ otherTrace snap ptr
  ++ (if printAll then [Action.logWarn] else [])
  ++ [Action.logUnlock, Action.guardUnlock, Action.callback, Action.fatal]

/-- The watchdog goroutine's loop (lines 180-221) as a function of the
events it observes: cancellation exits silently; a timer fire with the lock
absent from the snapshot re-arms silently; a timer fire with the lock still
held emits exactly one report and exits. Returns the outcome, the number of
reports emitted, and the task's trace. -/
def watchdogRun (ptr : LockHandle) (printAll : Bool) :
    List WatchEvent → WatchOutcome × Nat × List Action
  | [] => (.pending, 0, [])
  | .completed :: _ => (.exitCompleted, 0, [])
  | .timerFired snap m :: rest =>
    match lookupA snap ptr with
    | none =>
      let r := watchdogRun ptr printAll rest
      (r.1, r.2.1, Action.guardLock :: Action.guardUnlock :: r.2.2)
    | some _ => (.exitReported, 1, watchdogReportTrace snap ptr m printAll)

/-! ### Helper lemmas about the association-list maps -/

theorem lookupA_insertA_self {K V : Type} [DecidableEq K]
    (l : List (K × V)) (k : K) (v : V) : lookupA (insertA l k v) k = some v := by
  induction l with
  | nil => simp [insertA, lookupA]
  | cons hd tl ih =>
    by_cases h : hd.1 = k
    · simp [insertA, lookupA, h]
    · simp [insertA, lookupA, h, ih]

theorem insertA_length_le {K V : Type} [DecidableEq K]
    (l : List (K × V)) (k : K) (v : V) :
    (insertA l k v).length ≤ l.length + 1 := by
  induction l with
  | nil => simp [insertA]
  | cons hd tl ih =>
    by_cases h : hd.1 = k
    · simp [insertA, h]
    · simp only [insertA, h, if_false]
      simpa using Nat.succ_le_succ ih

theorem eraseA_lookup_self {K V : Type} [DecidableEq K]
    (l : List (K × V)) (k : K) : lookupA (eraseA l k) k = none := by
  induction l with
  | nil => simp [eraseA, lookupA]
  | cons hd tl ih =>
    by_cases h : hd.1 = k
    · simp [eraseA, h, ih]
    · simp [eraseA, lookupA, h, ih]

/-! ### Helper lemmas about report traces -/

theorem mem_otherEntriesTrace {a : Action} (p : LockHandle) (cur : Cur)
    (h : a ∈ otherEntriesTrace p cur) : a = .logWarn ∨ a = .renderStack := by
  induction cur with
  | nil => simp [otherEntriesTrace] at h
  | cons hd tl ih =>
    rw [otherEntriesTrace] at h
    by_cases hk : hd.1 = p
    · exact ih (by simpa [hk] using h)
    · rcases (by simpa [hk] using h : a = Action.logWarn ∨ a = Action.renderStack ∨
        a ∈ otherEntriesTrace p tl) with h1 | h2 | h3
      · exact Or.inl h1
      · exact Or.inr h2
      · exact ih h3

theorem mem_otherTrace {a : Action} (cur : Cur) (p : LockHandle)
    (h : a ∈ otherTrace cur p) : a = .logWarn ∨ a = .renderStack := by
  rw [otherTrace] at h
  split at h
  · simp at h
  · rcases List.mem_cons.mp h with h1 | h2
    · exact Or.inl h1
    · exact mem_otherEntriesTrace p cur h2

theorem guardUnlock_notMem_otherTrace (cur : Cur) (p : LockHandle) :
    Action.guardUnlock ∉ otherTrace cur p := by
  intro h
  rcases mem_otherTrace cur p h with h | h <;> exact Action.noConfusion h

theorem guardLock_notMem_otherTrace (cur : Cur) (p : LockHandle) :
    Action.guardLock ∉ otherTrace cur p := by
  intro h
  rcases mem_otherTrace cur p h with h | h <;> exact Action.noConfusion h

theorem callback_notMem_otherTrace (cur : Cur) (p : LockHandle) :
    Action.callback ∉ otherTrace cur p := by
  intro h
  rcases mem_otherTrace cur p h with h | h <;> exact Action.noConfusion h

theorem recursiveReportTrace_eq (cur : Cur) (p : LockHandle) :
    recursiveReportTrace cur p =
      ([Action.logLock, Action.logWarn, Action.logWarn, Action.renderStack,
        Action.logWarn, Action.renderStack]
        ++ otherTrace cur p ++ [Action.logUnlock])
      ++ [Action.callback, Action.fatal] := by
  simp [recursiveReportTrace]

theorem inversionReportTrace_eq (cur : Cur) (p : LockHandle) :
    inversionReportTrace cur p =
      ([Action.logLock, Action.logWarn, Action.logWarn, Action.renderStack,
        Action.logWarn, Action.renderStack, Action.logWarn, Action.renderStack,
        Action.logWarn, Action.renderStack]
        ++ otherTrace cur p ++ [Action.logUnlock])
      ++ [Action.callback, Action.fatal] := by
  simp [inversionReportTrace]

theorem guardUnlock_notMem_recursiveReportTrace (cur : Cur) (p : LockHandle) :
    Action.guardUnlock ∉ recursiveReportTrace cur p := by
  intro h
  rw [recursiveReportTrace] at h
  simp only [List.mem_append, List.mem_cons, List.mem_singleton] at h
  rcases h with (h | h) | h
  · simp at h
  · exact guardUnlock_notMem_otherTrace cur p h
  · simp at h

theorem guardUnlock_notMem_inversionReportTrace (cur : Cur) (p : LockHandle) :
    Action.guardUnlock ∉ inversionReportTrace cur p := by
  intro h
  rw [inversionReportTrace] at h
  simp only [List.mem_append, List.mem_cons, List.mem_singleton] at h
  rcases h with (h | h) | h
  · simp at h
  · exact guardUnlock_notMem_otherTrace cur p h
  · simp at h

theorem callback_mem_recursiveReportTrace (cur : Cur) (p : LockHandle) :
    Action.callback ∈ recursiveReportTrace cur p := by
  rw [recursiveReportTrace]; simp

theorem callback_mem_inversionReportTrace (cur : Cur) (p : LockHandle) :
    Action.callback ∈ inversionReportTrace cur p := by
  rw [inversionReportTrace]; simp

/-! ### Helper lemmas about the preLock loop -/

/-- A completed run of the loop always has the same trace: capture, gid,
guard taken, guard released. -/
theorem preLockLoop_completed_trace (cfg : Config) (cur0 : Cur) (p : LockHandle)
    (s : Stack) (g : Gid) :
    ∀ (rest : List (LockHandle × stackGID)) (order ord : Order) (tr : List Action),
      preLockLoop cfg cur0 p s g rest order = .completed ord tr →
      tr = [Action.captureStack, Action.getGid, Action.guardLock,
            Action.guardUnlock] := by
  intro rest
  induction rest with
  | nil =>
    intro order ord tr h
    rw [preLockLoop] at h
    cases h
    rfl
  | cons hd tl ih =>
    intro order ord tr h
    obtain ⟨b, bs⟩ := hd
    rw [preLockLoop] at h
    by_cases hb : b = p
    · by_cases hg : bs.gid = g
      · simp [hb, hg] at h
      · exact ih order ord tr (by simpa [hb, hg] using h)
    · by_cases hg : bs.gid = g
      · cases hl : lookupA order ⟨p, b⟩ with
        | none => exact ih _ ord tr (by simpa [hb, hg, hl] using h)
        | some s' => simp [hb, hg, hl] at h
      · exact ih order ord tr (by simpa [hb, hg] using h)

/-- A detected run of the loop carries one of the two report traces,
matching the kind, prefixed with the capture/gid/guard-take actions. -/
theorem preLockLoop_detected_trace (cfg : Config) (cur0 : Cur) (p : LockHandle)
    (s : Stack) (g : Gid) :
    ∀ (rest : List (LockHandle × stackGID)) (order : Order) (k : Detection)
      (tr : List Action),
      preLockLoop cfg cur0 p s g rest order = .detected k tr →
      (k = .recursive ∧
        tr = [Action.captureStack, Action.getGid, Action.guardLock]
          ++ recursiveReportTrace cur0 p) ∨
      (k = .inversion ∧
        tr = [Action.captureStack, Action.getGid, Action.guardLock]
          ++ inversionReportTrace cur0 p) := by
  intro rest
  induction rest with
  | nil =>
    intro order k tr h
    rw [preLockLoop] at h
    exact absurd h (by simp)
  | cons hd tl ih =>
    intro order k tr h
    obtain ⟨b, bs⟩ := hd
    rw [preLockLoop] at h
    by_cases hb : b = p
    · by_cases hg : bs.gid = g
      · refine Or.inl ?_
        have h' := h
        simp only [hb, hg, if_true, if_pos rfl] at h'
        cases h'
        exact ⟨rfl, rfl⟩
      · exact ih order k tr (by simpa [hb, hg] using h)
    · by_cases hg : bs.gid = g
      · cases hl : lookupA order ⟨p, b⟩ with
        | none => exact ih _ k tr (by simpa [hb, hg, hl] using h)
        | some s' =>
          refine Or.inr ?_
          have h' := h
          simp only [hb, hg, hl, if_false, ne_eq, not_true_eq_false,
            if_neg (fun hc => hb hc)] at h'
          simp [hb, hg, hl] at h'
          exact ⟨h'.1.symm, h'.2.symm⟩
      · exact ih order k tr (by simpa [hb, hg] using h)

/-- Recording an edge when the insert would reach the configured maximum
resets the table to empty, discarding the fresh entry too. -/
theorem recordEdge_reset (cfg : Config) (order : Order) (k : beforeAfter)
    (v : ss) (h : ((insertA order k v).length : Int) = cfg.maxMapSize) :
    recordEdge cfg order k v = [] := by
  simp [recordEdge, h]

/-- `recordEdge` preserves "strictly below the configured maximum". -/
theorem recordEdge_len_lt (cfg : Config) (order : Order) (k : beforeAfter)
    (v : ss) (hN : 1 ≤ cfg.maxMapSize)
    (h : (order.length : Int) < cfg.maxMapSize) :
    ((recordEdge cfg order k v).length : Int) < cfg.maxMapSize := by
  rw [recordEdge]
  split
  · simpa using hN
  · rename_i hne
    have hle := insertA_length_le order k v
    have : ((insertA order k v).length : Int) ≤ (order.length : Int) + 1 := by
      exact_mod_cast hle
    omega

/-- The loop preserves "order table strictly below the configured maximum". -/
theorem preLockLoop_completed_len (cfg : Config) (cur0 : Cur) (p : LockHandle)
    (s : Stack) (g : Gid) (hN : 1 ≤ cfg.maxMapSize) :
    ∀ (rest : List (LockHandle × stackGID)) (order ord : Order) (tr : List Action),
      (order.length : Int) < cfg.maxMapSize →
      preLockLoop cfg cur0 p s g rest order = .completed ord tr →
      (ord.length : Int) < cfg.maxMapSize := by
  intro rest
  induction rest with
  | nil =>
    intro order ord tr hlt h
    rw [preLockLoop] at h
    cases h
    exact hlt
  | cons hd tl ih =>
    intro order ord tr hlt h
    obtain ⟨b, bs⟩ := hd
    rw [preLockLoop] at h
    by_cases hb : b = p
    · by_cases hg : bs.gid = g
      · simp [hb, hg] at h
      · exact ih order ord tr hlt (by simpa [hb, hg] using h)
    · by_cases hg : bs.gid = g
      · cases hl : lookupA order ⟨p, b⟩ with
        | none =>
          exact ih _ ord tr
            (recordEdge_len_lt cfg order ⟨b, p⟩ ⟨bs.stack, s⟩ hN hlt)
            (by simpa [hb, hg, hl] using h)
        | some s' => simp [hb, hg, hl] at h
      · exact ih order ord tr hlt (by simpa [hb, hg] using h)

theorem mem_insertA {K V : Type} [DecidableEq K] {kv : K × V}
    (l : List (K × V)) (k : K) (v : V) (h : kv ∈ insertA l k v) :
    kv = (k, v) ∨ kv ∈ l := by
  induction l with
  | nil => simpa [insertA] using h
  | cons hd tl ih =>
    by_cases hk : hd.1 = k
    · rcases (by simpa [insertA, hk] using h : kv = (k, v) ∨ kv ∈ tl) with h1 | h2
      · exact Or.inl h1
      · exact Or.inr (List.mem_cons_of_mem hd h2)
    · rcases (by simpa [insertA, hk] using h : kv = hd ∨ kv ∈ insertA tl k v)
        with h1 | h2
      · exact Or.inr (h1 ▸ List.mem_cons_self hd tl)
      · rcases ih h2 with h3 | h4
        · exact Or.inl h3
        · exact Or.inr (List.mem_cons_of_mem hd h4)

theorem lookupA_eq_none {K V : Type} [DecidableEq K]
    (l : List (K × V)) (k : K) (h : ∀ kv ∈ l, kv.1 ≠ k) :
    lookupA l k = none := by
  induction l with
  | nil => rfl
  | cons hd tl ih =>
    rw [lookupA, if_neg (h hd (List.mem_cons_self hd tl))]
    exact ih (fun kv hkv => h kv (List.mem_cons_of_mem hd hkv))

/-- No key of the order table starts at `p` after an edge `(b, p)` with
`b ≠ p` is recorded, provided none did before. -/
theorem recordEdge_before_ne (cfg : Config) (order : Order) (b p : LockHandle)
    (v : ss) (hbp : b ≠ p) (h : ∀ kv ∈ order, kv.1.before ≠ p) :
    ∀ kv ∈ recordEdge cfg order ⟨b, p⟩ v, kv.1.before ≠ p := by
  intro kv hkv
  rw [recordEdge] at hkv
  split at hkv
  · simp at hkv
  · rcases mem_insertA order ⟨b, p⟩ v hkv with h1 | h2
    · rw [h1]
      exact hbp
    · exact h kv h2

/-- If the goroutine is recorded as holding `p` and no lock-order edge
starting at `p` exists, the loop reaches the self-entry and reports
recursive locking. -/
theorem preLockLoop_recursive_fires (cfg : Config) (cur0 : Cur)
    (p : LockHandle) (s : Stack) (g : Gid) :
    ∀ (rest : List (LockHandle × stackGID)) (order : Order),
      (∃ bs : stackGID, (p, bs) ∈ rest ∧ bs.gid = g) →
      (∀ kv ∈ order, kv.1.before ≠ p) →
      preLockLoop cfg cur0 p s g rest order =
        .detected .recursive
          ([Action.captureStack, Action.getGid, Action.guardLock]
            ++ recursiveReportTrace cur0 p) := by
  intro rest
  induction rest with
  | nil =>
    intro order hmem _
    obtain ⟨bs, hbs, _⟩ := hmem
    simp at hbs
  | cons hd tl ih =>
    intro order hmem hord
    obtain ⟨b, bs⟩ := hd
    rw [preLockLoop]
    by_cases hb : b = p
    · by_cases hg : bs.gid = g
      · simp [hb, hg]
      · obtain ⟨bs', hbs', hg'⟩ := hmem
        have hmem' : (p, bs') ∈ tl := by
          rcases List.mem_cons.mp hbs' with h1 | h2
          · cases h1
            exact absurd hg' hg
          · exact h2
        simpa [hb, hg] using ih order ⟨bs', hmem', hg'⟩ hord
    · obtain ⟨bs', hbs', hg'⟩ := hmem
      have hmem' : (p, bs') ∈ tl := by
        rcases List.mem_cons.mp hbs' with h1 | h2
        · cases h1
          exact absurd rfl hb
        · exact h2
      by_cases hg : bs.gid = g
      · have hnone : lookupA order ⟨p, b⟩ = none :=
          lookupA_eq_none order ⟨p, b⟩
            (fun kv hkv heq => hord kv hkv (by rw [heq]))
        have hord' := recordEdge_before_ne cfg order b p ⟨bs.stack, s⟩ hb hord
        simpa [hb, hg, hnone] using ih _ ⟨bs', hmem', hg'⟩ hord'
      · simpa [hb, hg] using ih order ⟨bs', hmem', hg'⟩ hord

/-- If the goroutine holds `B` (and nothing else of its acquisitions is in
the held map), `B ≠ p`, and edge `(p, B)` is on record, the loop reports an
order inversion when it reaches `B`'s entry. -/
theorem preLockLoop_inversion_fires (cfg : Config) (cur0 : Cur)
    (p B : LockHandle) (s : Stack) (g : Gid) (hpB : p ≠ B) :
    ∀ (rest : List (LockHandle × stackGID)) (order : Order),
      (∃ bs : stackGID, (B, bs) ∈ rest ∧ bs.gid = g) →
      (∀ kv ∈ rest, kv.1 ≠ B → kv.2.gid ≠ g) →
      (lookupA order ⟨p, B⟩).isSome →
      preLockLoop cfg cur0 p s g rest order =
        .detected .inversion
          ([Action.captureStack, Action.getGid, Action.guardLock]
            ++ inversionReportTrace cur0 p) := by
  intro rest
  induction rest with
  | nil =>
    intro order hmem _ _
    obtain ⟨bs, hbs, _⟩ := hmem
    simp at hbs
  | cons hd tl ih =>
    intro order hmem hothers hlook
    obtain ⟨b, bs⟩ := hd
    rw [preLockLoop]
    by_cases hb : b = B
    · have hbp : ¬ b = p := fun hc => hpB (hc.symm.trans hb)
      have hBp : ¬ B = p := fun hc => hpB hc.symm
      by_cases hg : bs.gid = g
      · obtain ⟨v, hv⟩ := Option.isSome_iff_exists.mp hlook
        simp [hb, hBp, hg, hv]
      · obtain ⟨bs', hbs', hg'⟩ := hmem
        have hmem' : (B, bs') ∈ tl := by
          rcases List.mem_cons.mp hbs' with h1 | h2
          · cases h1
            exact absurd hg' hg
          · exact h2
        simpa [hbp, hg] using
          ih order ⟨bs', hmem', hg'⟩
            (fun kv hkv => hothers kv (List.mem_cons_of_mem _ hkv)) hlook
    · have hg : bs.gid ≠ g :=
        hothers (b, bs) (List.mem_cons_self _ tl) hb
      obtain ⟨bs', hbs', hg'⟩ := hmem
      have hmem' : (B, bs') ∈ tl := by
        rcases List.mem_cons.mp hbs' with h1 | h2
        · cases h1
          exact absurd rfl hb
        · exact h2
      by_cases hbp : b = p
      · simpa [hbp, hg] using
          ih order ⟨bs', hmem', hg'⟩
            (fun kv hkv => hothers kv (List.mem_cons_of_mem _ hkv)) hlook
      · simpa [hbp, hg] using
          ih order ⟨bs', hmem', hg'⟩
            (fun kv hkv => hothers kv (List.mem_cons_of_mem _ hkv)) hlook

/-- If no entry of the held map records `p` as held by goroutine `g`, the
loop never reports recursive locking. -/
theorem preLockLoop_not_recursive (cfg : Config) (cur0 : Cur)
    (p : LockHandle) (s : Stack) (g : Gid) :
    ∀ (rest : List (LockHandle × stackGID)) (order : Order) (k : Detection)
      (tr : List Action),
      (∀ kv ∈ rest, kv.1 = p → kv.2.gid ≠ g) →
      preLockLoop cfg cur0 p s g rest order = .detected k tr →
      k = .inversion := by
  intro rest
  induction rest with
  | nil =>
    intro order k tr _ h
    rw [preLockLoop] at h
    exact absurd h (by simp)
  | cons hd tl ih =>
    intro order k tr hno h
    obtain ⟨b, bs⟩ := hd
    rw [preLockLoop] at h
    by_cases hb : b = p
    · have hg : bs.gid ≠ g := hno (b, bs) (List.mem_cons_self _ tl) hb
      exact ih order k tr (fun kv hkv => hno kv (List.mem_cons_of_mem _ hkv))
        (by simpa [hb, hg] using h)
    · by_cases hg : bs.gid = g
      · cases hl : lookupA order ⟨p, b⟩ with
        | none =>
          exact ih _ k tr (fun kv hkv => hno kv (List.mem_cons_of_mem _ hkv))
            (by simpa [hb, hg, hl] using h)
        | some s' =>
          have h' := h
          simp [hb, hg, hl] at h'
          exact h'.1.symm
      · exact ih order k tr (fun kv hkv => hno kv (List.mem_cons_of_mem _ hkv))
          (by simpa [hb, hg] using h)

/-! ### Glue lemmas about `lock` -/

/-- When detection is enabled and `preLock` completes, `lock` completes with
the held-record overwritten and the order table as `preLock` left it. -/
theorem lock_completed_of_preLock (cfg : Config) (st : LockOrderState)
    (ptr : LockHandle) (s1 s2 : Stack) (g : Gid) (ord : Order)
    (tr1 : List Action) (hd : cfg.disable = false)
    (hp : preLock cfg st ptr s1 g = .completed ord tr1) :
    ∃ tr sp, lock cfg st ptr s1 s2 g =
      .completed ⟨insertA st.cur ptr ⟨s2, g⟩, ord⟩ tr sp := by
  rw [lock, hd]
  simp only [Bool.false_eq_true, if_false, hp]
  by_cases ht : cfg.deadlockTimeout ≤ 0
  · refine ⟨tr1 ++ [Action.acquirePrimitive]
      ++ [Action.captureStack, Action.getGid, Action.guardLock,
          Action.guardUnlock], false, ?_⟩
    simp [ht, postLock]
  · refine ⟨tr1 ++ [Action.spawnWatchdog, Action.acquirePrimitive]
      ++ [Action.captureStack, Action.getGid, Action.guardLock,
          Action.guardUnlock] ++ [Action.closeSignal], true, ?_⟩
    simp [ht, postLock]

/-- When detection is enabled and `preLock` detects, `lock` propagates the
detection unchanged: the primitive is never acquired. -/
theorem lock_detected_of_preLock (cfg : Config) (st : LockOrderState)
    (ptr : LockHandle) (s1 s2 : Stack) (g : Gid) (k : Detection)
    (tr : List Action) (hd : cfg.disable = false)
    (hp : preLock cfg st ptr s1 g = .detected k tr) :
    lock cfg st ptr s1 s2 g = .detected k tr := by
  rw [lock, hd]
  simp [hp]

/-- Any detection propagated by `lock` originates in `preLock`. -/
theorem lock_detected_inv (cfg : Config) (st : LockOrderState)
    (ptr : LockHandle) (s1 s2 : Stack) (g : Gid) (k : Detection)
    (tr : List Action) (h : lock cfg st ptr s1 s2 g = .detected k tr) :
    preLock cfg st ptr s1 g = .detected k tr := by
  rw [lock] at h
  by_cases hd : cfg.disable
  · simp [hd] at h
  · simp only [hd, Bool.false_eq_true, if_false] at h
    cases hp : preLock cfg st ptr s1 g with
    | detected k' tr' =>
      rw [hp] at h
      simpa using h
    | completed ord tr1 =>
      rw [hp] at h
      by_cases ht : cfg.deadlockTimeout ≤ 0 <;> simp [ht] at h

/-- A completed `preLock` leaves either no trace (order detection disabled)
or the capture/gid/guard-take/guard-release trace. -/
theorem preLock_completed_trace (cfg : Config) (st : LockOrderState)
    (p : LockHandle) (s : Stack) (g : Gid) (ord : Order) (tr : List Action)
    (h : preLock cfg st p s g = .completed ord tr) :
    tr = [] ∨
    tr = [Action.captureStack, Action.getGid, Action.guardLock,
          Action.guardUnlock] := by
  rw [preLock] at h
  split at h
  · cases h
    exact Or.inl rfl
  · exact Or.inr (preLockLoop_completed_trace cfg st.cur p s g st.cur st.order
      ord tr h)

/-- A detected `preLock` carries the matching report trace after the
capture/gid/guard-take prefix. -/
theorem preLock_detected_trace (cfg : Config) (st : LockOrderState)
    (p : LockHandle) (s : Stack) (g : Gid) (k : Detection) (tr : List Action)
    (h : preLock cfg st p s g = .detected k tr) :
    (k = .recursive ∧
      tr = [Action.captureStack, Action.getGid, Action.guardLock]
        ++ recursiveReportTrace st.cur p) ∨
    (k = .inversion ∧
      tr = [Action.captureStack, Action.getGid, Action.guardLock]
        ++ inversionReportTrace st.cur p) := by
  rw [preLock] at h
  split at h
  · exact absurd h (by simp)
  · exact preLockLoop_detected_trace cfg st.cur p s g st.cur st.order k tr h

theorem acquirePrimitive_notMem_recursiveReportTrace (cur : Cur)
    (p : LockHandle) : Action.acquirePrimitive ∉ recursiveReportTrace cur p := by
  intro h
  rw [recursiveReportTrace] at h
  simp only [List.mem_append, List.mem_cons, List.mem_singleton] at h
  rcases h with (h | h) | h
  · simp at h
  · rcases mem_otherTrace cur p h with h' | h' <;> exact Action.noConfusion h'
  · simp at h

theorem acquirePrimitive_notMem_inversionReportTrace (cur : Cur)
    (p : LockHandle) : Action.acquirePrimitive ∉ inversionReportTrace cur p := by
  intro h
  rw [inversionReportTrace] at h
  simp only [List.mem_append, List.mem_cons, List.mem_singleton] at h
  rcases h with (h | h) | h
  · simp at h
  · rcases mem_otherTrace cur p h with h' | h' <;> exact Action.noConfusion h'
  · simp at h

/-! ### Helper lemmas about the watchdog -/

/-- The timeout report releases the log guard and then the graph guard as
its last actions before the callback and the forced fatal, and it balances
its guard take with its guard release. -/
theorem watchdogReportTrace_shape (snap : Cur) (ptr : LockHandle)
    (m : Nat) (pa : Bool) :
    ∃ t, watchdogReportTrace snap ptr m pa =
        t ++ [Action.logUnlock, Action.guardUnlock, Action.callback,
              Action.fatal] ∧
      (watchdogReportTrace snap ptr m pa).count Action.guardLock =
        (watchdogReportTrace snap ptr m pa).count Action.guardUnlock := by
  refine ⟨[Action.guardLock, Action.logLock, Action.logWarn, Action.logWarn,
      Action.logWarn, Action.renderStack, Action.logWarn, Action.getGid,
      Action.logWarn, Action.captureStack, Action.renderStack, Action.dumpAll]
      ++ List.replicate m Action.logWarn
      ++ otherTrace snap ptr
      ++ (if pa then [Action.logWarn] else []), ?_, ?_⟩
  · simp [watchdogReportTrace]
  · have h1 : (otherTrace snap ptr).count Action.guardLock = 0 :=
      List.count_eq_zero.mpr (guardLock_notMem_otherTrace snap ptr)
    have h2 : (otherTrace snap ptr).count Action.guardUnlock = 0 :=
      List.count_eq_zero.mpr (guardUnlock_notMem_otherTrace snap ptr)
    by_cases hpa : pa <;>
      simp [watchdogReportTrace, List.count_append, List.count_cons,
        List.count_replicate, h1, h2, hpa]

/-- A reported watchdog run's trace ends with log-guard release, graph-guard
release, the callback, and the forced fatal, with guard takes and releases
balanced over the whole task. -/
theorem watchdogRun_reported_shape (ptr : LockHandle) (pa : Bool) :
    ∀ evs : List WatchEvent,
      (watchdogRun ptr pa evs).1 = .exitReported →
      ∃ t, (watchdogRun ptr pa evs).2.2 =
          t ++ [Action.logUnlock, Action.guardUnlock, Action.callback,
                Action.fatal] ∧
        (watchdogRun ptr pa evs).2.2.count Action.guardLock =
          (watchdogRun ptr pa evs).2.2.count Action.guardUnlock := by
  intro evs
  induction evs with
  | nil =>
    intro h
    simp [watchdogRun] at h
  | cons hd tl ih =>
    intro h
    cases hd with
    | completed => simp [watchdogRun] at h
    | timerFired snap m =>
      cases hl : lookupA snap ptr with
      | none =>
        rw [watchdogRun, hl] at h ⊢
        obtain ⟨t, ht, hc⟩ := ih h
        refine ⟨Action.guardLock :: Action.guardUnlock :: t, ?_, ?_⟩
        · simp [ht]
        · simp [List.count_cons, hc]
      | some prev =>
        rw [watchdogRun, hl]
        exact watchdogReportTrace_shape snap ptr m pa

/-- A watchdog task emits at most one timeout report. -/
theorem watchdogRun_reports_le_one (ptr : LockHandle) (pa : Bool) :
    ∀ evs : List WatchEvent, (watchdogRun ptr pa evs).2.1 ≤ 1 := by
  intro evs
  induction evs with
  | nil => simp [watchdogRun]
  | cons hd tl ih =>
    cases hd with
    | completed => simp [watchdogRun]
    | timerFired snap m =>
      cases hl : lookupA snap ptr with
      | none => simpa [watchdogRun, hl] using ih
      | some prev => simp [watchdogRun, hl]

/-- A report implies some observed timer fire found the lock still held. -/
theorem watchdogRun_reported_cause (ptr : LockHandle) (pa : Bool) :
    ∀ evs : List WatchEvent,
      (watchdogRun ptr pa evs).1 = .exitReported →
      ∃ pre snap m rest, evs = pre ++ .timerFired snap m :: rest ∧
        (lookupA snap ptr).isSome := by
  intro evs
  induction evs with
  | nil =>
    intro h
    simp [watchdogRun] at h
  | cons hd tl ih =>
    intro h
    cases hd with
    | completed => simp [watchdogRun] at h
    | timerFired snap m =>
      cases hl : lookupA snap ptr with
      | none =>
        rw [watchdogRun, hl] at h
        obtain ⟨pre, snap', m', rest, hev, hsome⟩ := ih h
        exact ⟨.timerFired snap m :: pre, snap', m', rest, by simp [hev], hsome⟩
      | some prev =>
        exact ⟨[], snap, m, tl, rfl, by simp [hl]⟩

theorem lookupA_isSome_of_mem {K V : Type} [DecidableEq K] {k : K} {v : V} :
    ∀ l : List (K × V), (k, v) ∈ l → (lookupA l k).isSome := by
  intro l
  induction l with
  | nil => intro h; simp at h
  | cons hd tl ih =>
    intro h
    rw [lookupA]
    by_cases hk : hd.1 = k
    · simp [hk]
    · rcases List.mem_cons.mp h with h1 | h2
      · exact absurd (congrArg Prod.fst h1.symm) hk
      · simpa [hk] using ih h2

/-- Every edge present after a completed loop run was either already on
record or has its before-side among the iterated held entries' keys. -/
theorem preLockLoop_completed_edges (cfg : Config) (cur0 : Cur)
    (p : LockHandle) (s : Stack) (g : Gid) :
    ∀ (rest : List (LockHandle × stackGID)) (order ord : Order)
      (tr : List Action),
      preLockLoop cfg cur0 p s g rest order = .completed ord tr →
      ∀ kv ∈ ord, kv ∈ order ∨ ∃ bs : stackGID, (kv.1.before, bs) ∈ rest := by
  intro rest
  induction rest with
  | nil =>
    intro order ord tr h kv hkv
    rw [preLockLoop] at h
    cases h
    exact Or.inl hkv
  | cons hd tl ih =>
    intro order ord tr h kv hkv
    obtain ⟨b, bs⟩ := hd
    rw [preLockLoop] at h
    by_cases hb : b = p
    · by_cases hg : bs.gid = g
      · simp [hb, hg] at h
      · rcases ih order ord tr (by simpa [hb, hg] using h) kv hkv with h1 | h2
        · exact Or.inl h1
        · obtain ⟨bs', hbs'⟩ := h2
          exact Or.inr ⟨bs', List.mem_cons_of_mem _ hbs'⟩
    · by_cases hg : bs.gid = g
      · cases hl : lookupA order ⟨p, b⟩ with
        | none =>
          rcases ih _ ord tr (by simpa [hb, hg, hl] using h) kv hkv with h1 | h2
          · rw [recordEdge] at h1
            split at h1
            · simp at h1
            · rcases mem_insertA order ⟨b, p⟩ ⟨bs.stack, s⟩ h1 with h3 | h4
              · refine Or.inr ⟨bs, ?_⟩
                rw [h3]
                exact List.mem_cons_self _ tl
              · exact Or.inl h4
          · obtain ⟨bs', hbs'⟩ := h2
            exact Or.inr ⟨bs', List.mem_cons_of_mem _ hbs'⟩
        | some s' => simp [hb, hg, hl] at h
      · rcases ih order ord tr (by simpa [hb, hg] using h) kv hkv with h1 | h2
        · exact Or.inl h1
        · obtain ⟨bs', hbs'⟩ := h2
          exact Or.inr ⟨bs', List.mem_cons_of_mem _ hbs'⟩

/-! ### Claim theorems -/

/-- C1: with detection enabled, (i) a goroutine that acquires `B` while
holding `A` records the order edge `(A, B)` (provided no opposite edge is
on record and the insert does not hit the map-size reset), and (ii) a
goroutine recorded as holding `B` (and holding nothing else) that then
calls Lock/RLock on `A` while edge `(A, B)` is on record gets an
order-inversion ("Inconsistent locking") detection: `lock` reports,
invokes `Opts.OnPotentialDeadlock`, and never reaches the primitive's
acquire. -/
theorem C1_order_inversion :
    (∀ (cfg : Config) (A B : LockHandle) (sA sB : Stack) (g : Gid)
        (order : Order),
      cfg.disable = false → cfg.disableLockOrderDetection = false → A ≠ B →
      lookupA order ⟨B, A⟩ = none →
      ((insertA order ⟨A, B⟩ ⟨sA, sB⟩).length : Int) ≠ cfg.maxMapSize →
      ∃ st' tr sp, lock cfg ⟨[(A, ⟨sA, g⟩)], order⟩ B sB sB g =
          .completed st' tr sp ∧
        lookupA st'.order ⟨A, B⟩ = some ⟨sA, sB⟩) ∧
    (∀ (cfg : Config) (A B : LockHandle) (s2 : Stack) (g : Gid) (cur : Cur)
        (order : Order),
      cfg.disable = false → cfg.disableLockOrderDetection = false → A ≠ B →
      (∃ bs : stackGID, (B, bs) ∈ cur ∧ bs.gid = g) →
      (∀ kv ∈ cur, kv.1 ≠ B → kv.2.gid ≠ g) →
      (lookupA order ⟨A, B⟩).isSome →
      ∃ tr, lock cfg ⟨cur, order⟩ A s2 s2 g = .detected .inversion tr ∧
        Action.callback ∈ tr ∧ Action.acquirePrimitive ∉ tr) := by
  constructor
  · intro cfg A B sA sB g order hd hdis hAB hn hlen
    have hpre : preLock cfg ⟨[(A, ⟨sA, g⟩)], order⟩ B sB g =
        .completed (insertA order ⟨A, B⟩ ⟨sA, sB⟩)
          [Action.captureStack, Action.getGid, Action.guardLock,
           Action.guardUnlock] := by
      have hABne : ¬ A = B := hAB
      simp [preLock, hdis, preLockLoop, hABne, hn, recordEdge, hlen]
    obtain ⟨tr, sp, hlock⟩ :=
      lock_completed_of_preLock cfg ⟨[(A, ⟨sA, g⟩)], order⟩ B sB sB g
        (insertA order ⟨A, B⟩ ⟨sA, sB⟩) _ hd hpre
    exact ⟨_, tr, sp, hlock, lookupA_insertA_self order ⟨A, B⟩ ⟨sA, sB⟩⟩
  · intro cfg A B s2 g cur order hd hdis hAB hmem hothers hlook
    have hloop := preLockLoop_inversion_fires cfg cur A B s2 g hAB cur order
      hmem hothers hlook
    have hpre : preLock cfg ⟨cur, order⟩ A s2 g =
        .detected .inversion
          ([Action.captureStack, Action.getGid, Action.guardLock]
            ++ inversionReportTrace cur A) := by
      simpa [preLock, hdis] using hloop
    refine ⟨_, lock_detected_of_preLock cfg ⟨cur, order⟩ A s2 s2 g _ _ hd hpre,
      ?_, ?_⟩
    · exact List.mem_append_right _ (callback_mem_inversionReportTrace cur A)
    · intro hmemacq
      rcases List.mem_append.mp hmemacq with h | h
      · simp at h
      · exact acquirePrimitive_notMem_inversionReportTrace cur A h

/-- Witness for C1 at concrete inputs: lock 0 held by goroutine 7 which
acquires lock 1 (recording edge `(0, 1)`); then a goroutine 9 holding
lock 1 locks 0 and the inversion is detected. -/
theorem C1_order_inversion_witness :
    (∃ st' tr sp,
      lock ⟨false, false, 0, 100, false⟩ ⟨[(0, ⟨[1], 7⟩)], []⟩ 1 [2] [2] 7 =
        .completed st' tr sp ∧
      lookupA st'.order ⟨0, 1⟩ = some ⟨[1], [2]⟩) ∧
    (∃ tr,
      lock ⟨false, false, 0, 100, false⟩
          ⟨[(1, ⟨[2], 9⟩)], [(⟨0, 1⟩, ⟨[1], [2]⟩)]⟩ 0 [3] [3] 9 =
        .detected .inversion tr ∧
      Action.callback ∈ tr ∧ Action.acquirePrimitive ∉ tr) := by
  constructor
  · exact C1_order_inversion.1 ⟨false, false, 0, 100, false⟩ 0 1 [1] [2] 7 []
      rfl rfl (by decide) rfl (by decide)
  · exact C1_order_inversion.2 ⟨false, false, 0, 100, false⟩ 0 1 [3] 9
      [(1, ⟨[2], 9⟩)] [(⟨0, 1⟩, ⟨[1], [2]⟩)] rfl rfl (by decide)
      ⟨⟨[2], 9⟩, by decide, rfl⟩ (by decide) (by decide)

/-- C2: with detection enabled, (i) a goroutine recorded as currently
holding `L` that calls Lock/RLock on `L` again gets a "recursive locking"
detection before the acquisition (provided no recorded edge starts at `L`,
which would let the order-inversion check fire first on another held
lock): `lock` reports, invokes `Opts.OnPotentialDeadlock`, and never
reaches the primitive's acquire; (ii) if every held record of `L` belongs
to a different goroutine, no recursive-locking detection is produced. -/
theorem C2_recursive_locking :
    (∀ (cfg : Config) (L : LockHandle) (s2 : Stack) (g : Gid) (cur : Cur)
        (order : Order),
      cfg.disable = false → cfg.disableLockOrderDetection = false →
      (∃ bs : stackGID, (L, bs) ∈ cur ∧ bs.gid = g) →
      (∀ kv ∈ order, kv.1.before ≠ L) →
      ∃ tr, lock cfg ⟨cur, order⟩ L s2 s2 g = .detected .recursive tr ∧
        Action.callback ∈ tr ∧ Action.acquirePrimitive ∉ tr) ∧
    (∀ (cfg : Config) (L : LockHandle) (s2 : Stack) (g : Gid) (cur : Cur)
        (order : Order) (k : Detection) (tr : List Action),
      (∀ kv ∈ cur, kv.1 = L → kv.2.gid ≠ g) →
      lock cfg ⟨cur, order⟩ L s2 s2 g = .detected k tr →
      k ≠ .recursive) := by
  constructor
  · intro cfg L s2 g cur order hd hdis hmem hord
    have hloop := preLockLoop_recursive_fires cfg cur L s2 g cur order hmem hord
    have hpre : preLock cfg ⟨cur, order⟩ L s2 g =
        .detected .recursive
          ([Action.captureStack, Action.getGid, Action.guardLock]
            ++ recursiveReportTrace cur L) := by
      simpa [preLock, hdis] using hloop
    refine ⟨_, lock_detected_of_preLock cfg ⟨cur, order⟩ L s2 s2 g _ _ hd hpre,
      ?_, ?_⟩
    · exact List.mem_append_right _ (callback_mem_recursiveReportTrace cur L)
    · intro hmemacq
      rcases List.mem_append.mp hmemacq with h | h
      · simp at h
      · exact acquirePrimitive_notMem_recursiveReportTrace cur L h
  · intro cfg L s2 g cur order k tr hno h
    have hpre := lock_detected_inv cfg ⟨cur, order⟩ L s2 s2 g k tr h
    rw [preLock] at hpre
    split at hpre
    · exact absurd hpre (by simp)
    · have := preLockLoop_not_recursive cfg cur L s2 g cur order k tr hno hpre
      rw [this]
      intro hc
      exact Detection.noConfusion hc

/-- Witness for C2 at concrete inputs: goroutine 7 holds lock 0 and locks
it again (recursive detection); lock 0 held by goroutine 9 while goroutine
7 also holds lock 1 with edge `(0, 1)` on record: re-locking 0 detects,
but the kind is not recursive (it is the inversion check that fires). -/
theorem C2_recursive_locking_witness :
    (∃ tr,
      lock ⟨false, false, 0, 100, false⟩ ⟨[(0, ⟨[1], 7⟩)], []⟩ 0 [2] [2] 7 =
        .detected .recursive tr ∧
      Action.callback ∈ tr ∧ Action.acquirePrimitive ∉ tr) ∧
    Detection.inversion ≠ Detection.recursive := by
  constructor
  · exact C2_recursive_locking.1 ⟨false, false, 0, 100, false⟩ 0 [2] 7
      [(0, ⟨[1], 7⟩)] [] rfl rfl ⟨⟨[1], 7⟩, by decide, rfl⟩ (by decide)
  · exact C2_recursive_locking.2 ⟨false, false, 0, 100, false⟩ 0 [2] 7
      [(0, ⟨[1], 9⟩), (1, ⟨[5], 7⟩)] [(⟨0, 1⟩, ⟨[1], [5]⟩)] .inversion
      [Action.captureStack, Action.getGid, Action.guardLock, Action.logLock,
       Action.logWarn, Action.logWarn, Action.renderStack, Action.logWarn,
       Action.renderStack, Action.logWarn, Action.renderStack, Action.logWarn,
       Action.renderStack, Action.logWarn, Action.logWarn, Action.renderStack,
       Action.logUnlock, Action.callback, Action.fatal]
      (by decide) (by decide)

/-- C3: with a positive `DeadlockTimeout` and detection enabled, (i) each
completing acquisition spawns exactly one watchdog task; (ii) a watchdog
that observes the completion signal exits with no report; (iii) a timer
fire that finds the lock absent from the held map silently re-arms: it
changes neither the task's outcome nor its report count; (iv) a watchdog
task produces at most one timeout report; (v) a report happens only when
some timer fire found the lock still recorded as held at the re-check. -/
theorem C3_watchdog_lifecycle :
    (∀ (cfg : Config) (st : LockOrderState) (ptr : LockHandle)
        (s1 s2 : Stack) (g : Gid) (st' : LockOrderState) (tr : List Action)
        (sp : Bool),
      cfg.disable = false → 0 < cfg.deadlockTimeout →
      lock cfg st ptr s1 s2 g = .completed st' tr sp →
      sp = true ∧ tr.count Action.spawnWatchdog = 1) ∧
    (∀ (ptr : LockHandle) (pa : Bool) (evs : List WatchEvent),
      watchdogRun ptr pa (.completed :: evs) = (.exitCompleted, 0, [])) ∧
    (∀ (ptr : LockHandle) (pa : Bool) (snap : Cur) (m : Nat)
        (evs : List WatchEvent),
      lookupA snap ptr = none →
      (watchdogRun ptr pa (.timerFired snap m :: evs)).1 =
        (watchdogRun ptr pa evs).1 ∧
      (watchdogRun ptr pa (.timerFired snap m :: evs)).2.1 =
        (watchdogRun ptr pa evs).2.1) ∧
    (∀ (ptr : LockHandle) (pa : Bool) (evs : List WatchEvent),
      (watchdogRun ptr pa evs).2.1 ≤ 1) ∧
    (∀ (ptr : LockHandle) (pa : Bool) (evs : List WatchEvent),
      (watchdogRun ptr pa evs).1 = .exitReported →
      ∃ pre snap m rest, evs = pre ++ .timerFired snap m :: rest ∧
        (lookupA snap ptr).isSome) := by
  refine ⟨?_, ?_, ?_, ?_, ?_⟩
  · intro cfg st ptr s1 s2 g st' tr sp hd ht h
    rw [lock, hd] at h
    simp only [Bool.false_eq_true, if_false] at h
    cases hp : preLock cfg st ptr s1 g with
    | detected k tr' =>
      rw [hp] at h
      simp at h
    | completed ord tr1 =>
      rw [hp] at h
      have ht' : ¬ cfg.deadlockTimeout ≤ 0 := by omega
      simp only [ht', if_false] at h
      have hinj : LockOrderState.mk (insertA st.cur ptr (stackGID.mk s2 g))
            ord = st' ∧
          tr1 ++ [Action.spawnWatchdog, Action.acquirePrimitive,
            Action.captureStack, Action.getGid, Action.guardLock,
            Action.guardUnlock, Action.closeSignal] = tr ∧ sp = true := by
        simpa [postLock] using (LockResult.completed.injEq _ _ _ _ _ _).mp h
      refine ⟨hinj.2.2, ?_⟩
      rcases preLock_completed_trace cfg st ptr s1 g ord tr1 hp with h1 | h1 <;>
        · rw [← hinj.2.1, h1]
          decide
  · intro ptr pa evs
    rfl
  · intro ptr pa snap m evs hl
    rw [watchdogRun, hl]
    exact ⟨rfl, rfl⟩
  · exact fun ptr pa evs => watchdogRun_reports_le_one ptr pa evs
  · exact fun ptr pa evs => watchdogRun_reported_cause ptr pa evs

/-- Witness for C3 at concrete inputs: an enabled timed acquisition spawns
one watchdog; a cancelled watchdog reports nothing; a timer fire over an
empty held map re-arms silently; report counts stay at most one; a
reported run contains a fire that found the lock held. -/
theorem C3_watchdog_lifecycle_witness :
    (true = true ∧
      ([Action.captureStack, Action.getGid, Action.guardLock,
        Action.guardUnlock, Action.spawnWatchdog, Action.acquirePrimitive,
        Action.captureStack, Action.getGid, Action.guardLock,
        Action.guardUnlock, Action.closeSignal].count Action.spawnWatchdog
        = 1)) ∧
    watchdogRun 0 false [.completed] = (.exitCompleted, 0, []) ∧
    ((watchdogRun 0 false [.timerFired [] 0, .completed]).1 =
        (watchdogRun 0 false [.completed]).1 ∧
      (watchdogRun 0 false [.timerFired [] 0, .completed]).2.1 =
        (watchdogRun 0 false [.completed]).2.1) ∧
    (watchdogRun 0 false [.timerFired [(0, ⟨[1], 7⟩)] 0]).2.1 ≤ 1 ∧
    (∃ pre snap m rest,
      ([.timerFired [(0, ⟨[1], 7⟩)] 0] : List WatchEvent) =
        pre ++ .timerFired snap m :: rest ∧ (lookupA snap 0).isSome) := by
  refine ⟨?_, ?_, ?_, ?_, ?_⟩
  · exact C3_watchdog_lifecycle.1 ⟨false, false, 1, 100, false⟩
      ⟨[], []⟩ 0 [1] [2] 7 ⟨[(0, ⟨[2], 7⟩)], []⟩ _ true rfl (by decide)
      (by decide)
  · exact C3_watchdog_lifecycle.2.1 0 false []
  · exact C3_watchdog_lifecycle.2.2.1 0 false [] 0 [.completed] rfl
  · exact C3_watchdog_lifecycle.2.2.2.1 0 false [.timerFired [(0, ⟨[1], 7⟩)] 0]
  · exact C3_watchdog_lifecycle.2.2.2.2 0 false
      [.timerFired [(0, ⟨[1], 7⟩)] 0] rfl

/-- C4: for every detection kind, after the report the configured callback
runs and is followed unconditionally by the forced fatal, so control never
returns to the caller: (i) any `preLock` detection's trace ends with the
callback then the forced fatal; (ii) so does any reported watchdog task's
trace; (iii) a detection inside `lock` means the primitive's acquire was
never reached, and its trace also ends callback-then-fatal. -/
theorem C4_callback_then_fatal :
    (∀ (cfg : Config) (st : LockOrderState) (p : LockHandle) (s : Stack)
        (g : Gid) (k : Detection) (tr : List Action),
      preLock cfg st p s g = .detected k tr →
      ∃ t, tr = t ++ [Action.callback, Action.fatal]) ∧
    (∀ (ptr : LockHandle) (pa : Bool) (evs : List WatchEvent),
      (watchdogRun ptr pa evs).1 = .exitReported →
      ∃ t, (watchdogRun ptr pa evs).2.2 =
        t ++ [Action.callback, Action.fatal]) ∧
    (∀ (cfg : Config) (st : LockOrderState) (ptr : LockHandle)
        (s1 s2 : Stack) (g : Gid) (k : Detection) (tr : List Action),
      lock cfg st ptr s1 s2 g = .detected k tr →
      Action.acquirePrimitive ∉ tr ∧
      ∃ t, tr = t ++ [Action.callback, Action.fatal]) := by
  have hpre : ∀ (cfg : Config) (st : LockOrderState) (p : LockHandle)
      (s : Stack) (g : Gid) (k : Detection) (tr : List Action),
      preLock cfg st p s g = .detected k tr →
      Action.acquirePrimitive ∉ tr ∧
      ∃ t, tr = t ++ [Action.callback, Action.fatal] := by
    intro cfg st p s g k tr h
    rcases preLock_detected_trace cfg st p s g k tr h with ⟨_, htr⟩ | ⟨_, htr⟩
    · constructor
      · intro hmem
        rw [htr] at hmem
        rcases List.mem_append.mp hmem with h1 | h1
        · simp at h1
        · exact acquirePrimitive_notMem_recursiveReportTrace st.cur p h1
      · refine ⟨[Action.captureStack, Action.getGid, Action.guardLock]
          ++ ([Action.logLock, Action.logWarn, Action.logWarn,
              Action.renderStack, Action.logWarn, Action.renderStack]
            ++ otherTrace st.cur p ++ [Action.logUnlock]), ?_⟩
        rw [htr, recursiveReportTrace_eq]
        simp
    · constructor
      · intro hmem
        rw [htr] at hmem
        rcases List.mem_append.mp hmem with h1 | h1
        · simp at h1
        · exact acquirePrimitive_notMem_inversionReportTrace st.cur p h1
      · refine ⟨[Action.captureStack, Action.getGid, Action.guardLock]
          ++ ([Action.logLock, Action.logWarn, Action.logWarn,
              Action.renderStack, Action.logWarn, Action.renderStack,
              Action.logWarn, Action.renderStack, Action.logWarn,
              Action.renderStack]
            ++ otherTrace st.cur p ++ [Action.logUnlock]), ?_⟩
        rw [htr, inversionReportTrace_eq]
        simp
  refine ⟨?_, ?_, ?_⟩
  · exact fun cfg st p s g k tr h => (hpre cfg st p s g k tr h).2
  · intro ptr pa evs h
    obtain ⟨t, ht, _⟩ := watchdogRun_reported_shape ptr pa evs h
    exact ⟨t ++ [Action.logUnlock, Action.guardUnlock], by simp [ht]⟩
  · intro cfg st ptr s1 s2 g k tr h
    exact hpre cfg st ptr s1 g k tr (lock_detected_inv cfg st ptr s1 s2 g k tr h)

/-- Witness for C4 at concrete inputs: the recursive detection of relocking
a held lock, and a reported watchdog run, both end callback-then-fatal. -/
theorem C4_callback_then_fatal_witness :
    (∃ t, [Action.captureStack, Action.getGid, Action.guardLock,
        Action.logLock, Action.logWarn, Action.logWarn, Action.renderStack,
        Action.logWarn, Action.renderStack, Action.logUnlock,
        Action.callback, Action.fatal] =
      t ++ [Action.callback, Action.fatal]) ∧
    (∃ t, (watchdogRun 0 false [.timerFired [(0, ⟨[1], 7⟩)] 0]).2.2 =
      t ++ [Action.callback, Action.fatal]) ∧
    (Action.acquirePrimitive ∉
        ([Action.captureStack, Action.getGid, Action.guardLock,
          Action.logLock, Action.logWarn, Action.logWarn, Action.renderStack,
          Action.logWarn, Action.renderStack, Action.logUnlock,
          Action.callback, Action.fatal] : List Action) ∧
      ∃ t, [Action.captureStack, Action.getGid, Action.guardLock,
          Action.logLock, Action.logWarn, Action.logWarn, Action.renderStack,
          Action.logWarn, Action.renderStack, Action.logUnlock,
          Action.callback, Action.fatal] =
        t ++ [Action.callback, Action.fatal]) := by
  refine ⟨?_, ?_, ?_⟩
  · exact C4_callback_then_fatal.1 ⟨false, false, 0, 100, false⟩
      ⟨[(0, ⟨[1], 7⟩)], []⟩ 0 [2] 7 .recursive _ (by decide)
  · exact C4_callback_then_fatal.2.1 0 false
      [.timerFired [(0, ⟨[1], 7⟩)] 0] rfl
  · exact C4_callback_then_fatal.2.2 ⟨false, false, 0, 100, false⟩
      ⟨[(0, ⟨[1], 7⟩)], []⟩ 0 [2] [2] 7 .recursive _ (by decide)

/-- Counterexample to C5: with `MaxMapSize = 2` and the order table at one
entry, recording the 2nd distinct ordered pair (edge `(0, 1)`, while
goroutine 7 holds lock 0 and acquires lock 1) clears the table to exactly
zero entries: the clear fires on the Nth distinct pair, not the N+1st, and
the triggering insert is itself discarded, so the table size immediately
after the clear is 0. -/
theorem C5_map_reset_counterexample :
    ([((⟨5, 6⟩ : beforeAfter), (⟨[1], [2]⟩ : ss))] : Order).length = 1 ∧
    (⟨false, false, 0, 2, false⟩ : Config).maxMapSize = 2 ∧
    preLock ⟨false, false, 0, 2, false⟩
        ⟨[(0, ⟨[11], 7⟩)], [(⟨5, 6⟩, ⟨[1], [2]⟩)]⟩ 1 [12] 7 =
      .completed []
        [Action.captureStack, Action.getGid, Action.guardLock,
         Action.guardUnlock] ∧
    ([] : Order).length = 0 := by
  decide

/-- C5 as amended: the table is cleared wholesale exactly when recording a
pair makes it contain `MaxMapSize` entries (the Nth distinct pair), and the
triggering insert is discarded with the rest, so the table is empty
immediately after the clear; edges recorded later in the same `preLock`
call may re-add entries, so the size at the end of the call need not be 0
(concretely: with `MaxMapSize = 2`, a table at one entry, and two held
locks, the first recorded edge clears the table and the second leaves it
at one entry). -/
theorem C5_map_reset_amended :
    (∀ (cfg : Config) (order : Order) (k : beforeAfter) (v : ss),
      ((insertA order k v).length : Int) = cfg.maxMapSize →
      recordEdge cfg order k v = [] ∧
      (recordEdge cfg order k v).length = 0) ∧
    preLock ⟨false, false, 0, 2, false⟩
        ⟨[(0, ⟨[11], 7⟩), (1, ⟨[13], 7⟩)], [(⟨5, 6⟩, ⟨[1], [2]⟩)]⟩ 2 [12] 7 =
      .completed [(⟨1, 2⟩, ⟨[13], [12]⟩)]
        [Action.captureStack, Action.getGid, Action.guardLock,
         Action.guardUnlock] := by
  constructor
  · intro cfg order k v h
    have hr := recordEdge_reset cfg order k v h
    exact ⟨hr, by rw [hr]; rfl⟩
  · decide

/-- Witness for the amended C5 at a concrete input: with `MaxMapSize = 1`,
recording any pair into the empty table reaches the maximum and clears. -/
theorem C5_map_reset_amended_witness :
    recordEdge ⟨false, false, 0, 1, false⟩ [] ⟨0, 1⟩ ⟨[], []⟩ = [] ∧
    (recordEdge ⟨false, false, 0, 1, false⟩ [] ⟨0, 1⟩ ⟨[], []⟩).length = 0 := by
  exact C5_map_reset_amended.1 ⟨false, false, 0, 1, false⟩ [] ⟨0, 1⟩ ⟨[], []⟩
    (by decide)

/-- C6: with `Opts.Disable = true`, an acquisition is exactly the
primitive's acquire (no global-state read or write, no watchdog spawn, no
stack capture) and a release is exactly the primitive's release (no
held-map deletion): the instrumented operations are observationally the
raw primitive. -/
theorem C6_disabled_passthrough (cfg : Config) (st : LockOrderState)
    (ptr : LockHandle) (s1 s2 : Stack) (g : Gid) (h : cfg.disable = true) :
    lock cfg st ptr s1 s2 g = .completed st [Action.acquirePrimitive] false ∧
    unlock cfg st ptr = (st, [Action.releasePrimitive]) := by
  constructor
  · rw [lock, h]
    simp
  · rw [unlock, h]
    simp

/-- Witness for C6 at a concrete input. -/
theorem C6_disabled_passthrough_witness :
    lock ⟨true, false, 30, 100, false⟩ ⟨[(0, ⟨[1], 7⟩)], []⟩ 1 [2] [3] 9 =
      .completed ⟨[(0, ⟨[1], 7⟩)], []⟩ [Action.acquirePrimitive] false ∧
    unlock ⟨true, false, 30, 100, false⟩ ⟨[(0, ⟨[1], 7⟩)], []⟩ 0 =
      (⟨[(0, ⟨[1], 7⟩)], []⟩, [Action.releasePrimitive]) :=
  C6_disabled_passthrough ⟨true, false, 30, 100, false⟩ ⟨[(0, ⟨[1], 7⟩)], []⟩
    1 [2] [3] 9 rfl

/-- Counterexample to C7: in the watchdog's timeout-report path the graph
guard `lo.mu` IS held across calls into the Frame/Identity Provider. At a
concrete reported run, the task's trace takes the guard in its prefix,
never releases it there, and then — still under the guard — renders the
holder's stack, reads the goroutine id, captures the current stack,
renders it, and dumps all goroutines, before the guard is finally
released. -/
theorem C7_guard_scope_counterexample :
    (watchdogRun 1 false [.timerFired [(1, ⟨[7], 5⟩)] 0]).2.2 =
      [Action.guardLock, Action.logLock, Action.logWarn, Action.logWarn,
       Action.logWarn, Action.renderStack, Action.logWarn, Action.getGid,
       Action.logWarn]
      ++ [Action.captureStack, Action.renderStack, Action.dumpAll]
      ++ [Action.logUnlock, Action.guardUnlock, Action.callback,
          Action.fatal] ∧
    Action.guardLock ∈
      ([Action.guardLock, Action.logLock, Action.logWarn, Action.logWarn,
        Action.logWarn, Action.renderStack, Action.logWarn, Action.getGid,
        Action.logWarn] : List Action) ∧
    Action.renderStack ∈
      ([Action.guardLock, Action.logLock, Action.logWarn, Action.logWarn,
        Action.logWarn, Action.renderStack, Action.logWarn, Action.getGid,
        Action.logWarn] : List Action) ∧
    Action.guardUnlock ∉
      ([Action.guardLock, Action.logLock, Action.logWarn, Action.logWarn,
        Action.logWarn, Action.renderStack, Action.logWarn, Action.getGid,
        Action.logWarn] : List Action)
      ++ [Action.captureStack, Action.renderStack, Action.dumpAll] := by
  decide

/-- C7 as amended: the graph guard is never held across the wrapped
primitive's blocking acquire — in every completed acquisition the guard
take/release counts are balanced before the acquire — and on the
non-detecting path the stack capture and goroutine-id read happen before
the guard is taken, the guard being held only across the bookkeeping
mutations; but in the detecting/report paths (recursive, inversion,
timeout) the guard remains held across stack rendering — and in the
timeout path also across stack capture, goroutine-id retrieval and the
all-goroutine dump — until the process is terminated. -/
theorem C7_guard_scope_amended :
    (∀ (cfg : Config) (st : LockOrderState) (ptr : LockHandle)
        (s1 s2 : Stack) (g : Gid) (st' : LockOrderState) (tr : List Action)
        (sp : Bool),
      lock cfg st ptr s1 s2 g = .completed st' tr sp →
      ∃ t1 t2, tr = t1 ++ Action.acquirePrimitive :: t2 ∧
        t1.count Action.guardLock = t1.count Action.guardUnlock) ∧
    (∀ (cfg : Config) (st : LockOrderState) (p : LockHandle) (s : Stack)
        (g : Gid) (ord : Order) (tr : List Action),
      cfg.disableLockOrderDetection = false →
      preLock cfg st p s g = .completed ord tr →
      tr = [Action.captureStack, Action.getGid, Action.guardLock,
            Action.guardUnlock]) := by
  constructor
  · intro cfg st ptr s1 s2 g st' tr sp h
    rw [lock] at h
    by_cases hd : cfg.disable
    · simp only [hd, if_true] at h
      have htr : tr = [Action.acquirePrimitive] :=
        (((LockResult.completed.injEq _ _ _ _ _ _).mp h).2.1).symm
      exact ⟨[], [], by simp [htr], rfl⟩
    · simp only [hd, Bool.false_eq_true, if_false] at h
      cases hp : preLock cfg st ptr s1 g with
      | detected k tr' =>
        rw [hp] at h
        simp at h
      | completed ord tr1 =>
        rw [hp] at h
        by_cases ht : cfg.deadlockTimeout ≤ 0
        · simp only [ht, if_true] at h
          have htr : tr1 ++ [Action.acquirePrimitive, Action.captureStack,
              Action.getGid, Action.guardLock, Action.guardUnlock] = tr := by
            simpa [postLock] using
              ((LockResult.completed.injEq _ _ _ _ _ _).mp h).2.1
          refine ⟨tr1, [Action.captureStack, Action.getGid, Action.guardLock,
            Action.guardUnlock], by simp [← htr], ?_⟩
          rcases preLock_completed_trace cfg st ptr s1 g ord tr1 hp with
            h1 | h1 <;>
            · rw [h1]
              decide
        · simp only [ht, if_false] at h
          have htr : tr1 ++ [Action.spawnWatchdog, Action.acquirePrimitive,
              Action.captureStack, Action.getGid, Action.guardLock,
              Action.guardUnlock, Action.closeSignal] = tr := by
            simpa [postLock] using
              ((LockResult.completed.injEq _ _ _ _ _ _).mp h).2.1
          refine ⟨tr1 ++ [Action.spawnWatchdog],
            [Action.captureStack, Action.getGid, Action.guardLock,
             Action.guardUnlock, Action.closeSignal], by simp [← htr], ?_⟩
          rcases preLock_completed_trace cfg st ptr s1 g ord tr1 hp with
            h1 | h1 <;>
            · rw [h1]
              decide
  · intro cfg st p s g ord tr hdis h
    rw [preLock, hdis] at h
    simp only [Bool.false_eq_true, if_false] at h
    exact preLockLoop_completed_trace cfg st.cur p s g st.cur st.order ord tr h

/-- Witness for the amended C7 at concrete inputs: an enabled untimed
acquisition of lock 1 while lock 0 is held by another goroutine. -/
theorem C7_guard_scope_amended_witness :
    (∃ t1 t2,
      ([Action.captureStack, Action.getGid, Action.guardLock,
        Action.guardUnlock, Action.acquirePrimitive, Action.captureStack,
        Action.getGid, Action.guardLock, Action.guardUnlock] : List Action) =
        t1 ++ Action.acquirePrimitive :: t2 ∧
      t1.count Action.guardLock = t1.count Action.guardUnlock) ∧
    ([Action.captureStack, Action.getGid, Action.guardLock,
      Action.guardUnlock] : List Action) =
      [Action.captureStack, Action.getGid, Action.guardLock,
       Action.guardUnlock] := by
  constructor
  · exact C7_guard_scope_amended.1 ⟨false, false, 0, 100, false⟩
      ⟨[(0, ⟨[1], 9⟩)], []⟩ 1 [2] [3] 7 ⟨[(0, ⟨[1], 9⟩), (1, ⟨[3], 7⟩)], []⟩
      [Action.captureStack, Action.getGid, Action.guardLock,
       Action.guardUnlock, Action.acquirePrimitive, Action.captureStack,
       Action.getGid, Action.guardLock, Action.guardUnlock] false (by decide)
  · exact C7_guard_scope_amended.2 ⟨false, false, 0, 100, false⟩
      ⟨[(0, ⟨[1], 9⟩)], []⟩ 1 [2] 7 []
      [Action.captureStack, Action.getGid, Action.guardLock,
       Action.guardUnlock] rfl (by decide)

/-- C8: for `MaxMapSize ≥ 1` the order table holds strictly fewer than
`MaxMapSize` entries whenever the guard is free: the table starts empty,
`postLock`/`postUnlock` never touch it, any completing `preLock` preserves
the bound, and the clear fires exactly when an insertion makes the size
equal `MaxMapSize`, discarding the triggering entry with the rest (the
table is empty immediately after the clear). -/
theorem C8_order_table_bound :
    (∀ (cfg : Config) (st : LockOrderState) (p : LockHandle) (s : Stack)
        (g : Gid) (ord : Order) (tr : List Action),
      1 ≤ cfg.maxMapSize →
      (st.order.length : Int) < cfg.maxMapSize →
      preLock cfg st p s g = .completed ord tr →
      (ord.length : Int) < cfg.maxMapSize) ∧
    (∀ (cfg : Config) (order : Order) (k : beforeAfter) (v : ss),
      (((insertA order k v).length : Int) = cfg.maxMapSize →
        recordEdge cfg order k v = []) ∧
      (((insertA order k v).length : Int) ≠ cfg.maxMapSize →
        recordEdge cfg order k v = insertA order k v)) ∧
    (∀ (st : LockOrderState) (p : LockHandle) (stack : Stack) (g : Gid),
      (postLock st p stack g).1.order = st.order) ∧
    (∀ (st : LockOrderState) (p : LockHandle),
      (postUnlock st p).1.order = st.order) ∧
    newLockOrder.order.length = 0 := by
  refine ⟨?_, ?_, ?_, ?_, rfl⟩
  · intro cfg st p s g ord tr hN hlt h
    rw [preLock] at h
    split at h
    · cases h
      exact hlt
    · exact preLockLoop_completed_len cfg st.cur p s g hN st.cur st.order ord
        tr hlt h
  · intro cfg order k v
    exact ⟨recordEdge_reset cfg order k v, fun h => by simp [recordEdge, h]⟩
  · intro st p stack g
    rfl
  · intro st p
    rfl

/-- Witness for C8 at concrete inputs: a `preLock` under `MaxMapSize = 2`
that records one edge stays below the bound, and the two halves of the
clear rule at size 1. -/
theorem C8_order_table_bound_witness :
    ((([(⟨1, 2⟩, ⟨[13], [12]⟩)] : Order).length : Int) < 2 ∧
      recordEdge ⟨false, false, 0, 1, false⟩ [] ⟨0, 1⟩ ⟨[], []⟩ = [] ∧
      recordEdge ⟨false, false, 0, 2, false⟩ [] ⟨0, 1⟩ ⟨[], []⟩ =
        insertA [] ⟨0, 1⟩ ⟨[], []⟩) := by
  refine ⟨?_, ?_, ?_⟩
  · exact C8_order_table_bound.1 ⟨false, false, 0, 2, false⟩
      ⟨[(0, ⟨[11], 7⟩), (1, ⟨[13], 7⟩)], [(⟨5, 6⟩, ⟨[1], [2]⟩)]⟩ 2 [12] 7
      [(⟨1, 2⟩, ⟨[13], [12]⟩)]
      [Action.captureStack, Action.getGid, Action.guardLock,
       Action.guardUnlock] (by decide) (by decide) (by decide)
  · exact (C8_order_table_bound.2.1 ⟨false, false, 0, 1, false⟩ [] ⟨0, 1⟩
      ⟨[], []⟩).1 (by decide)
  · exact (C8_order_table_bound.2.1 ⟨false, false, 0, 2, false⟩ [] ⟨0, 1⟩
      ⟨[], []⟩).2 (by decide)

/-- C9: the held map keeps at most one record per lock handle — `postLock`
overwrites the handle's record wholesale — and `postUnlock` deletes it
entirely. Hence after two readers' `postLock`s on the same handle and one
`postUnlock` (the first `RUnlock`), the handle is no longer recorded as
held even though a reader still holds it, a watchdog re-check against
that state finds no holder and re-arms without reporting, and a completing
`preLock` records no new order edge whose before-side is the unrecorded
handle. -/
theorem C9_single_held_record :
    (∀ (st : LockOrderState) (p : LockHandle) (s : Stack) (g : Gid),
      lookupA (postLock st p s g).1.cur p = some ⟨s, g⟩) ∧
    (∀ (st : LockOrderState) (p : LockHandle) (s1 s2 : Stack) (g1 g2 : Gid),
      lookupA
        (postUnlock (postLock (postLock st p s1 g1).1 p s2 g2).1 p).1.cur
        p = none) ∧
    (∀ (st : LockOrderState) (p : LockHandle) (pa : Bool) (m : Nat)
        (evs : List WatchEvent),
      (watchdogRun p pa (.timerFired (postUnlock st p).1.cur m :: evs)).1 =
        (watchdogRun p pa evs).1 ∧
      (watchdogRun p pa (.timerFired (postUnlock st p).1.cur m :: evs)).2.1 =
        (watchdogRun p pa evs).2.1) ∧
    (∀ (cfg : Config) (st : LockOrderState) (q p : LockHandle) (s : Stack)
        (g : Gid) (ord : Order) (tr : List Action),
      lookupA st.cur p = none →
      (∀ kv ∈ st.order, kv.1.before ≠ p) →
      preLock cfg st q s g = .completed ord tr →
      ∀ kv ∈ ord, kv.1.before ≠ p) := by
  refine ⟨?_, ?_, ?_, ?_⟩
  · intro st p s g
    exact lookupA_insertA_self st.cur p ⟨s, g⟩
  · intro st p s1 s2 g1 g2
    exact eraseA_lookup_self _ p
  · intro st p pa m evs
    rw [watchdogRun]
    rw [show lookupA (postUnlock st p).1.cur p = none from
      eraseA_lookup_self st.cur p]
    exact ⟨rfl, rfl⟩
  · intro cfg st q p s g ord tr hnone hord h kv hkv
    rw [preLock] at h
    split at h
    · cases h
      exact hord kv hkv
    · rcases preLockLoop_completed_edges cfg st.cur q s g st.cur st.order ord
        tr h kv hkv with h1 | h2
      · exact hord kv h1
      · obtain ⟨bs, hbs⟩ := h2
        intro hc
        rw [hc] at hbs
        have := lookupA_isSome_of_mem st.cur hbs
        rw [hnone] at this
        simp at this

/-- Witness for C9 at concrete inputs: after two readers record lock 0 and
one releases it, the handle is unrecorded; a watchdog re-check against the
resulting held map re-arms; a later acquisition of lock 1 by the holder of
lock 2 records no edge starting at lock 0. -/
theorem C9_single_held_record_witness :
    lookupA (postLock ⟨[], []⟩ 0 [1] 7).1.cur 0 = some ⟨[1], 7⟩ ∧
    lookupA
      (postUnlock (postLock (postLock ⟨[], []⟩ 0 [1] 7).1 0 [2] 9).1 0).1.cur
      0 = none ∧
    ((watchdogRun 0 false
        (.timerFired (postUnlock ⟨[(0, ⟨[1], 7⟩)], []⟩ 0).1.cur 0
          :: [])).1 = (watchdogRun 0 false []).1) ∧
    (∀ kv ∈ ([(⟨2, 1⟩, ⟨[5], [6]⟩)] : Order), kv.1.before ≠ 0) := by
  refine ⟨?_, ?_, ?_, ?_⟩
  · exact C9_single_held_record.1 ⟨[], []⟩ 0 [1] 7
  · exact C9_single_held_record.2.1 ⟨[], []⟩ 0 [1] [2] 7 9
  · exact (C9_single_held_record.2.2.1 ⟨[(0, ⟨[1], 7⟩)], []⟩ 0 false 0 []).1
  · exact C9_single_held_record.2.2.2 ⟨false, false, 0, 100, false⟩
      ⟨[(2, ⟨[5], 7⟩)], []⟩ 1 0 [6] 7 [(⟨2, 1⟩, ⟨[5], [6]⟩)]
      [Action.captureStack, Action.getGid, Action.guardLock,
       Action.guardUnlock] rfl (by decide) (by decide)

/-- C10: in the recursive and inversion paths the callback runs while the
graph guard is still held — the detected trace takes the guard right after
the stack/gid capture and never releases it, with the callback occurring
after the take — whereas in the timeout path the log guard and then the
graph guard are released immediately before the callback, the task's guard
takes and releases being balanced. -/
theorem C10_callback_guard_state :
    (∀ (cfg : Config) (st : LockOrderState) (p : LockHandle) (s : Stack)
        (g : Gid) (k : Detection) (tr : List Action),
      preLock cfg st p s g = .detected k tr →
      ∃ t, tr = Action.captureStack :: Action.getGid :: Action.guardLock :: t ∧
        Action.guardUnlock ∉ t ∧ Action.callback ∈ t) ∧
    (∀ (ptr : LockHandle) (pa : Bool) (evs : List WatchEvent),
      (watchdogRun ptr pa evs).1 = .exitReported →
      ∃ t, (watchdogRun ptr pa evs).2.2 =
          t ++ [Action.logUnlock, Action.guardUnlock, Action.callback,
                Action.fatal] ∧
        (watchdogRun ptr pa evs).2.2.count Action.guardLock =
          (watchdogRun ptr pa evs).2.2.count Action.guardUnlock) := by
  constructor
  · intro cfg st p s g k tr h
    rcases preLock_detected_trace cfg st p s g k tr h with ⟨_, htr⟩ | ⟨_, htr⟩
    · refine ⟨recursiveReportTrace st.cur p, by simpa using htr,
        guardUnlock_notMem_recursiveReportTrace st.cur p,
        callback_mem_recursiveReportTrace st.cur p⟩
    · refine ⟨inversionReportTrace st.cur p, by simpa using htr,
        guardUnlock_notMem_inversionReportTrace st.cur p,
        callback_mem_inversionReportTrace st.cur p⟩
  · exact fun ptr pa evs h => watchdogRun_reported_shape ptr pa evs h

/-- Witness for C10 at concrete inputs: the recursive detection of
relocking a held lock, and a reported watchdog run. -/
theorem C10_callback_guard_state_witness :
    (∃ t, ([Action.captureStack, Action.getGid, Action.guardLock,
        Action.logLock, Action.logWarn, Action.logWarn, Action.renderStack,
        Action.logWarn, Action.renderStack, Action.logUnlock,
        Action.callback, Action.fatal] : List Action) =
        Action.captureStack :: Action.getGid :: Action.guardLock :: t ∧
      Action.guardUnlock ∉ t ∧ Action.callback ∈ t) ∧
    (∃ t, (watchdogRun 0 false [.timerFired [(0, ⟨[1], 7⟩)] 0]).2.2 =
        t ++ [Action.logUnlock, Action.guardUnlock, Action.callback,
              Action.fatal] ∧
      (watchdogRun 0 false [.timerFired [(0, ⟨[1], 7⟩)] 0]).2.2.count
          Action.guardLock =
        (watchdogRun 0 false [.timerFired [(0, ⟨[1], 7⟩)] 0]).2.2.count
          Action.guardUnlock) := by
  constructor
  · exact C10_callback_guard_state.1 ⟨false, false, 0, 100, false⟩
      ⟨[(0, ⟨[1], 7⟩)], []⟩ 0 [2] 7 .recursive _ (by decide)
  · exact C10_callback_guard_state.2 0 false
      [.timerFired [(0, ⟨[1], 7⟩)] 0] rfl

end GoDeadlock
